/-
Verification of the hackmd-search crawler (src/main.rs) against its
natural-language specification.

The development shallowly embeds the program:
* `Page` mirrors the `Page` struct (serde `rename_all = "camelCase"`).
* `Json`, `encodePage`/`decodePage` model the serde_json snapshot
  serialization of `Vec<Page>` at the JSON-value level.
* `Env` is the network oracle: the outcome of each HTTP request made
  through the retrying session client.
* `refill`/`drain`/`completeOne` model `futures::stream::buffered(5)`
  as a small scheduler machine quantified over all completion orders.
* `build_database` and `mainFlow` are the two functions of the source,
  instrumented with an event trace (network requests, prompts, file IO).
-/
import Mathlib

namespace Hackmd

/-- The `Page` struct of the source: id, title, lastchange_at, optional
content (absent until a download succeeds). -/
structure Page where
  id : String
  title : String
  lastchange_at : String
  content : Option String
deriving DecidableEq, Repr, Inhabited

/-- JSON values, the target of the serde_json serialization collaborator. -/
inductive Json where
  | null : Json
  | str (s : String) : Json
  | arr (elems : List Json) : Json
  | obj (fields : List (String × Json)) : Json

/-- Serialization of one `Page` by serde with camelCase field renaming:
`lastchange_at` becomes the JSON key `lastchangeAt`; `None` content is
serialized as `null`. -/
def encodePage (p : Page) : Json :=
  .obj [("id", .str p.id), ("title", .str p.title),
        ("lastchangeAt", .str p.lastchange_at),
        ("content", match p.content with | some c => .str c | none => .null)]

/-- Serialization of the whole `Vec<Page>` snapshot: a JSON array. -/
def encodePages (ps : List Page) : Json :=
  .arr (ps.map encodePage)

/-- Deserialization of one `Page` by the serde derive: fields looked up by
name, string fields required, the `Option<String>` field `content` absent
or `null` meaning `None`. -/
def decodePage (j : Json) : Except String Page :=
  match j with
  | .obj fields =>
    match fields.lookup "id", fields.lookup "title", fields.lookup "lastchangeAt" with
    | some (.str i), some (.str t), some (.str l) =>
      match fields.lookup "content" with
      | none => .ok ⟨i, t, l, none⟩
      | some .null => .ok ⟨i, t, l, none⟩
      | some (.str c) => .ok ⟨i, t, l, some c⟩
      | some _ => .error "invalid type for field content"
    | _, _, _ => .error "missing or invalid field"
  | _ => .error "expected a JSON object"

/-- Deserialization of the snapshot file into a `Vec<Page>`. -/
def decodePages (j : Json) : Except String (List Page) :=
  match j with
  | .arr elems => elems.mapM decodePage
  | _ => .error "expected a JSON array"

theorem decodePage_encodePage (p : Page) : decodePage (encodePage p) = .ok p := by
  cases p with
  | mk i t l c => cases c <;> rfl

theorem decodePages_encodePages (ps : List Page) :
    decodePages (encodePages ps) = .ok ps := by
  induction ps with
  | nil => rfl
  | cons p ps ih =>
    simp only [encodePages, decodePages] at ih ⊢
    rw [List.map_cons, List.mapM_cons, decodePage_encodePage, ih]
    rfl

/-! CSRF token extraction.

The source applies the regex `"csrf-token" content="(.+)"` to the landing
page body and takes the first match. `.` does not match a newline, and the
greedy `(.+)` followed by `"` captures, at the first position where the
whole pattern matches, everything up to the last double quote on that line
(at least one character). The model scans every start position, as the
regex engine does. -/

/-- The literal part of the token regex, as a character list. -/
def csrfMarker : List Char := "\"csrf-token\" content=\"".data

/-- Characters of `line` strictly before its last double quote, or `none`
if it has no double quote: the greedy `(.+)"` capture attempt. -/
def lastQuoteSplit : List Char → Option (List Char)
  | [] => none
  | c :: cs =>
    match lastQuoteSplit cs with
    | some rest => some (c :: rest)
    | none => if c = '"' then some [] else none

/-- Capture attempt for one occurrence of the marker: restrict to the
current line (the regex dot does not cross a newline), take the greedy
capture, and require it nonempty (`.+`). -/
def csrfTryAt (rest : List Char) : Option (List Char) :=
  match lastQuoteSplit (rest.takeWhile (fun c => c ≠ '\n')) with
  | some cap => if cap.isEmpty then none else some cap
  | none => none

/-- Scan of the body for the first position where the full pattern
matches, as `Regex::captures_iter(..).next()` does. -/
def csrfScan : List Char → Option (List Char)
  | [] => none
  | c :: cs =>
    match
      if csrfMarker.isPrefixOf (c :: cs) then
        csrfTryAt (List.drop csrfMarker.length (c :: cs))
      else none
    with
    | some cap => some cap
    | none => csrfScan cs

/-- The capture of the regex `"csrf-token" content="(.+)"` on the landing
page body, `none` when there is no match. -/
def extractCsrf (content : String) : Option String :=
  (csrfScan content.data).map String.mk

/-! The HTTP oracle environment. Every request of the program goes through
the retrying session client; the `Env` fields give the outcome of each
request after that client's internal retry policy has run. -/

/-- An HTTP response: its status code and the result of reading its body as
text (`response.text()` is itself fallible). -/
structure HttpResp where
  status : Nat
  text : Except String String
deriving Repr, Inhabited

/-- The team-listing response: status code and the result of deserializing
its JSON body as `Vec<Page>` (`response.json()`). -/
structure ListResp where
  status : Nat
  json : Except String (List Page)

/-- Network / input oracle for one run: the outcome of the landing-page
request, of the login request (a function of the submitted CSRF token,
email and password), of the listing request, and of each per-document
download request keyed by document id; plus the two interactive inputs. -/
structure Env where
  landing : Except String HttpResp
  login : String → String → String → Except String HttpResp
  listing : Except String ListResp
  download : String → Except String HttpResp
  user : String
  pass : String
  meili : Except String Unit

/-- `reqwest::StatusCode::is_success`: 2xx. -/
def isSuccess (s : Nat) : Bool := 200 ≤ s && s < 300

/-- `Response::error_for_status` errors exactly on client and server error
statuses: 400-599. -/
def isErrorStatus (s : Nat) : Bool := 400 ≤ s && s < 600

def SERVER_URL : String := "https://hackmd.io"

def login_url : String := SERVER_URL ++ "/login"

def request_url (team : String) : String :=
  SERVER_URL ++ "/api/overview/team/" ++ team

def page_url (id : String) : String :=
  SERVER_URL ++ "/" ++ id ++ "/download"

/-- Rust `str::trim` applied to the username line read from stdin. -/
def trimAscii (s : String) : String :=
  String.mk (((s.data.dropWhile Char.isWhitespace).reverse.dropWhile
    Char.isWhitespace).reverse)

/-- The per-document download closure: `client.get(page_url).send().await?`
then `response.text().await`. Only transport errors are checked; the HTTP
status code of the response is never inspected. -/
def fetchOne (env : Env) (id : String) : Except String String :=
  match env.download id with
  | .error e => .error e
  | .ok response => response.text

/-! The retry middleware of the session client:
`ExponentialBackoff::builder().build_with_max_retries(3)` wrapped by
`RetryTransientMiddleware`. Transient failures are retried up to
`max_retries` additional attempts with exponentially growing delay;
non-transient failures propagate immediately. -/

/-- Maximum number of retries configured on the retry policy. -/
def MAX_RETRIES : Nat := 3

/-- Outcome of a single attempt of one request, as classified by the retry
middleware: success, a transient failure (network error, timeout, 5xx or
429), or a non-transient failure. -/
inductive Attempt where
  | ok (r : HttpResp) : Attempt
  | transient (e : String) : Attempt
  | fatal (e : String) : Attempt

/-- The retry loop of the middleware over the sequence of attempt
outcomes of one request, starting at attempt number `n`. -/
def retryFrom (maxRetries : Nat) (attempts : Nat → Attempt) (n : Nat) :
    Except String HttpResp :=
  match attempts n with
  | .ok r => .ok r
  | .fatal e => .error e
  | .transient e =>
    if h : n < maxRetries then retryFrom maxRetries attempts (n + 1)
    else .error e
termination_by maxRetries - n

/-- One request through the session client: first attempt plus up to
`maxRetries` retries. -/
def retrySend (maxRetries : Nat) (attempts : Nat → Attempt) :
    Except String HttpResp :=
  retryFrom maxRetries attempts 0

/-- Model of the exponential backoff delay (milliseconds, jitter aside)
before retry number `i`. -/
def retryDelay (i : Nat) : Nat := 1000 * 2 ^ i

/-! Model of `stream::iter(..).map(..).buffered(CONCURRENT_REQUESTS)`
followed by `collect`.

`buffered cap` keeps an ordered queue of at most `cap` futures: it starts
futures in input order while the queue has a free slot, lets the started
futures complete in an arbitrary order (the `sched` argument chooses, at
each step, which in-flight future completes next), and yields the results
in input order, holding an out-of-order completion in the queue until all
earlier results have been yielded. The machine below is quantified over
every completion schedule. -/

/-- State of the buffered-stream machine. `emitted` results have been
yielded (they were the futures `0..emitted`); `flight` holds the indices
of futures started but not completed; `buf` holds indices completed but
not yet yielded; `out` is the list of yielded results. -/
structure BufSt (α : Type) where
  emitted : Nat
  flight : List Nat
  buf : List Nat
  out : List α
deriving Repr

/-- Number of slots of the queue in use: in-flight futures plus buffered
out-of-order results. -/
def BufSt.queueLen (s : BufSt α) : Nat := s.flight.length + s.buf.length

/-- Number of futures started so far; also the index of the next future to
start. -/
def BufSt.started (s : BufSt α) : Nat := s.emitted + s.queueLen

/-- Number of futures whose download has completed. -/
def BufSt.completedCount (s : BufSt α) : Nat := s.emitted + s.buf.length

/-- Starting one more future: its index joins the in-flight list. -/
def refillNext (s : BufSt α) : BufSt α :=
  { s with flight := s.flight ++ [s.started] }

/-- Start futures in input order while a queue slot is free and input
remains, as `buffered` does on every poll. -/
def refill (n cap : Nat) (s : BufSt α) : BufSt α :=
  if s.started < n ∧ s.queueLen < cap then refill n cap (refillNext s)
  else s
termination_by n - s.started
decreasing_by
  simp only [refillNext, BufSt.started, BufSt.queueLen, List.length_append,
    List.length_cons, List.length_nil] at *
  omega

/-- Yielding the next expected result: it leaves the queue and its result
is appended to the output. -/
def drainNext (res : Nat → α) (s : BufSt α) : BufSt α :=
  { emitted := s.emitted + 1, flight := s.flight,
    buf := s.buf.erase s.emitted, out := s.out ++ [res s.emitted] }

/-- Yield every result that is ready in order: while the next expected
index has completed, move it from the queue to the output. -/
def drain (res : Nat → α) (s : BufSt α) : BufSt α :=
  if h : s.emitted ∈ s.buf then drain res (drainNext res s) else s
termination_by s.buf.length
decreasing_by
  simp only [drainNext]
  have h2 := List.length_erase_of_mem h
  have hpos : 0 < s.buf.length := List.length_pos.mpr (by
    intro hnil; rw [hnil] at h; exact (List.not_mem_nil _ h))
  omega

/-- Completion of the in-flight future at position `k` of the in-flight
list: it moves to the completed buffer. -/
def completeNext (k : Nat) (s : BufSt α) : BufSt α :=
  { s with
      flight := s.flight.eraseIdx k,
      buf := s.buf ++ [s.flight.getD k 0] }

/-- One scheduler choice: some in-flight future, selected by the schedule,
completes and its result joins the queue's completed buffer. -/
def completeOne (choice : Nat) (s : BufSt α) : BufSt α :=
  if s.flight.isEmpty then s
  else completeNext (choice % s.flight.length) s

/-- One step of driving the buffered stream: a scheduled completion,
then yielding whatever became ready, then restarting up to capacity. -/
def stepB (n cap : Nat) (res : Nat → α) (choice : Nat) (s : BufSt α) :
    BufSt α :=
  refill n cap (drain res (completeOne choice s))

/-- The machine state after `k` scheduler steps, starting from the empty
state filled up to capacity. -/
def iterB (n cap : Nat) (res : Nat → α) (sched : Nat → Nat) (k : Nat) :
    BufSt α :=
  (List.range k).foldl (fun s t => stepB n cap res (sched t) s)
    (refill n cap ⟨0, [], [], []⟩)

/-- `const CONCURRENT_REQUESTS: usize = 5;` -/
def CONCURRENT_REQUESTS : Nat := 5

/-- Result of the download future for the page at position `i` of the
listing. -/
def downloadRes (env : Env) (page_list : List Page) (i : Nat) :
    Except String String :=
  fetchOne env ((page_list.map Page.id).getD i "")

/-- States of the bounded content fetcher on a given listing: the buffered
download stream after `k` scheduler steps. -/
def downloadStates (env : Env) (page_list : List Page) (sched : Nat → Nat)
    (k : Nat) : BufSt (Except String String) :=
  iterB page_list.length CONCURRENT_REQUESTS (downloadRes env page_list)
    sched k

/-- In-place update of the element at one index of a list, as the indexed
assignment `page_list[idx].content = ..` does. -/
def modifyIdx (l : List α) (i : Nat) (f : α → α) : List α :=
  match l, i with
  | [], _ => []
  | a :: as, 0 => f a :: as
  | a :: as, i + 1 => a :: modifyIdx as i f

/-- One iteration of the write-back loop: on `Ok(content)` set the content
of the page at that position, on `Err` leave the entry untouched. -/
def applyStep (acc : List Page) (p : Nat × Except String String) :
    List Page :=
  match p.2 with
  | .ok content => modifyIdx acc p.1 (fun page => { page with content := some content })
  | .error _ => acc

/-- The write-back loop over the collected download results:
`bodies.into_iter().enumerate().for_each(..)` with indexed assignment into
`page_list`. -/
def applyResults (page_list : List Page)
    (bodies : List (Except String String)) : List Page :=
  bodies.enum.foldl applyStep page_list

/-! The two functions of the program, instrumented with an event trace. -/

/-- Observable side effects of a run, in order. -/
inductive Event where
  | netRequest (url : String) : Event
  | promptUser : Event
  | promptPass : Event
  | fileWrite (path : String) : Event
  | fileRead (path : String) : Event
deriving DecidableEq, Repr

/-- Errors surfaced by the run: the `UserInputError::MissingArgument`
variant, or any other anyhow error carrying its message. -/
inductive RunError where
  | missingArgument (arg : String) : RunError
  | other (msg : String) : RunError
deriving DecidableEq, Repr

/-- `build_database`: CSRF-token scrape of the landing page, interactive
credential prompts, login POST, team-listing GET with `error_for_status`
and JSON deserialization, then the bounded concurrent download of every
page's content, written back into `page_list` by positional index. Returns
the resulting collection together with the trace of its side effects. -/
def build_database (env : Env) (team : String) (sched : Nat → Nat) :
    Except String (List Page) × List Event :=
  match env.landing with
  | .error e => (.error e, [.netRequest SERVER_URL])
  | .ok response =>
    match response.text with
    | .error e => (.error e, [.netRequest SERVER_URL])
    | .ok content =>
      match extractCsrf content with
      | none => (.error "no CSRF token found", [.netRequest SERVER_URL])
      | some csrf_token =>
        let ev0 := [Event.netRequest SERVER_URL, Event.promptUser,
          Event.promptPass]
        match env.login csrf_token (trimAscii env.user) env.pass with
        | .error e => (.error e, ev0 ++ [.netRequest login_url])
        | .ok response =>
          if isSuccess response.status then
            let ev1 := ev0 ++ [Event.netRequest login_url,
              Event.netRequest (request_url team)]
            match env.listing with
            | .error e => (.error e, ev1)
            | .ok listResp =>
              if isErrorStatus listResp.status then
                (.error "listing status error", ev1)
              else
                match listResp.json with
                | .error e => (.error e, ev1)
                | .ok page_list =>
                  let bodies :=
                    (downloadStates env page_list sched page_list.length).out
                  (.ok (applyResults page_list bodies),
                   ev1 ++ page_list.map (fun p => Event.netRequest (page_url p.id)))
          else (.error "Login failure", ev0 ++ [.netRequest login_url])

/-- The command-line arguments of the program. -/
structure Args where
  team : Option String
  database : String
  update : Bool
  meilisearch : Option String

/-- The filesystem as the run sees it: whether a path is an existing
regular file, and the parsed JSON content obtained by opening and reading
a path. -/
structure World where
  isFile : String → Bool
  openRead : String → Except String Json

/-- The meilisearch publishing step guarded by `args.meilisearch`: a thin
boundary adapter, modelled as one network interaction with the sink whose
outcome the oracle provides. -/
def to_meilisearch (env : Env) (meilisearch : Option String) :
    Except RunError Unit × List Event :=
  match meilisearch with
  | none => (.ok (), [])
  | some url =>
    match env.meili with
    | .ok _ => (.ok (), [.netRequest url])
    | .error e => (.error (.other e), [.netRequest url])

/-- `main`: requires a nonempty database path; enters build mode when the
update flag is set or the snapshot path is not an existing file (requiring
the team argument, running `build_database` and overwriting the snapshot
with the serialized collection), and load mode otherwise (deserializing
the snapshot); finally optionally publishes to meilisearch. Returns the
collection in use, the snapshot content written (if any) and the event
trace. -/
def mainFlow (env : Env) (world : World) (args : Args) (sched : Nat → Nat) :
    Except RunError (List Page) × Option Json × List Event :=
  if args.database = "" then
    (.error (.missingArgument "database"), none, [])
  else if args.update || ! world.isFile args.database then
    match args.team with
    | none => (.error (.missingArgument "team"), none, [])
    | some team =>
      match build_database env team sched with
      | (.error e, tr) => (.error (.other e), none, tr)
      | (.ok page_list, tr) =>
        let written := encodePages page_list
        match to_meilisearch env args.meilisearch with
        | (.ok _, tr2) =>
          (.ok page_list, some written,
           tr ++ [.fileWrite args.database] ++ tr2)
        | (.error e, tr2) =>
          (.error e, some written, tr ++ [.fileWrite args.database] ++ tr2)
  else
    match world.openRead args.database with
    | .error e => (.error (.other e), none, [.fileRead args.database])
    | .ok j =>
      match decodePages j with
      | .error e => (.error (.other e), none, [.fileRead args.database])
      | .ok page_list =>
        match to_meilisearch env args.meilisearch with
        | (.ok _, tr2) =>
          (.ok page_list, none, [Event.fileRead args.database] ++ tr2)
        | (.error e, tr2) =>
          (.error e, none, [Event.fileRead args.database] ++ tr2)

/-! Invariants of the buffered-stream machine. -/

/-- Core invariant of the machine: the queue holds exactly the indices
from `emitted` to `started` (in some order), at most `n` futures have been
started, the queue occupies at most `cap` slots, and the output so far is
the results of the first `emitted` futures in input order. -/
structure BufCore (n cap : Nat) (res : Nat → α) (s : BufSt α) : Prop where
  perm : (s.flight ++ s.buf).Perm (List.range' s.emitted s.queueLen)
  le_n : s.started ≤ n
  le_cap : s.queueLen ≤ cap
  outEq : s.out = (List.range s.emitted).map res

/-- Full invariant at the points between scheduler steps: additionally the
queue has been refilled to capacity (or the input exhausted) and the next
result to yield has not completed (it was just drained). -/
def BufInv (n cap : Nat) (res : Nat → α) (s : BufSt α) : Prop :=
  BufCore n cap res s ∧ s.started = min n (s.emitted + cap) ∧
    s.emitted ∉ s.buf

theorem refill_spec (n cap : Nat) (res : Nat → α) (s : BufSt α)
    (hc : BufCore n cap res s) :
    BufCore n cap res (refill n cap s) ∧
    (refill n cap s).started = min n ((refill n cap s).emitted + cap) ∧
    (refill n cap s).emitted = s.emitted ∧
    (refill n cap s).buf = s.buf ∧
    (refill n cap s).out = s.out := by
  rw [refill]
  by_cases h : s.started < n ∧ s.queueLen < cap
  · rw [if_pos h]
    have hql : (refillNext s).queueLen = s.queueLen + 1 := by
      simp [refillNext, BufSt.queueLen]; omega
    have hst : (refillNext s).started = s.started + 1 := by
      simp only [refillNext, BufSt.started, BufSt.queueLen] at hql ⊢
      omega
    have hcore : BufCore n cap res (refillNext s) := by
      constructor
      · show ((s.flight ++ [s.started]) ++ s.buf).Perm _
        have h1 : ((s.flight ++ [s.started]) ++ s.buf).Perm
            ((s.flight ++ s.buf) ++ [s.started]) := by
          rw [List.append_assoc, List.append_assoc]
          exact List.Perm.append_left s.flight List.perm_append_comm
        have h2 : ((s.flight ++ s.buf) ++ [s.started]).Perm
            (List.range' s.emitted s.queueLen ++ [s.started]) :=
          List.Perm.append_right _ hc.perm
        have h3 : List.range' s.emitted s.queueLen ++ [s.started] =
            List.range' s.emitted (s.queueLen + 1) := by
          rw [List.range'_concat]
          simp [BufSt.started, Nat.add_comm]
        rw [hql]
        exact (h1.trans h2).trans (by rw [h3]; exact List.Perm.refl _)
      · rw [hst]; exact h.1
      · rw [hql]; exact h.2
      · exact hc.outEq
    obtain ⟨c1, c2, c3, c4, c5⟩ := refill_spec n cap res _ hcore
    exact ⟨c1, c2, c3, c4, c5⟩
  · rw [if_neg h]
    refine ⟨hc, ?_, rfl, rfl, rfl⟩
    have h1 := hc.le_n
    have h2 := hc.le_cap
    simp only [BufSt.started] at *
    omega
termination_by n - s.started
decreasing_by
  simp only [refillNext, BufSt.started, BufSt.queueLen, List.length_append,
    List.length_cons, List.length_nil] at *
  omega

theorem drain_spec (n cap : Nat) (res : Nat → α) (s : BufSt α)
    (hc : BufCore n cap res s) :
    BufCore n cap res (drain res s) ∧
    (drain res s).emitted ∉ (drain res s).buf ∧
    (drain res s).flight = s.flight ∧
    (drain res s).started = s.started ∧
    (drain res s).completedCount = s.completedCount := by
  rw [drain]
  by_cases h : s.emitted ∈ s.buf
  · rw [dif_pos h]
    have hblen : 0 < s.buf.length := List.length_pos.mpr (by
      intro hnil; rw [hnil] at h; exact (List.not_mem_nil _ h))
    have herase : (s.buf.erase s.emitted).length = s.buf.length - 1 :=
      List.length_erase_of_mem h
    have hnd : (s.flight ++ s.buf).Nodup :=
      hc.perm.symm.nodup (List.nodup_range' _ _)
    have hef : s.emitted ∉ s.flight := by
      rcases List.nodup_append.mp hnd with ⟨-, -, hdisj⟩
      intro hmem; exact hdisj hmem h
    have hql : (drainNext res s).queueLen = s.queueLen - 1 := by
      simp only [drainNext, BufSt.queueLen, herase]; omega
    have hcore : BufCore n cap res (drainNext res s) := by
      constructor
      · show (s.flight ++ s.buf.erase s.emitted).Perm _
        rw [hql]
        have e1 : s.flight ++ s.buf.erase s.emitted =
            (s.flight ++ s.buf).erase s.emitted :=
          (List.erase_append_right _ hef).symm
        have e2 : ((s.flight ++ s.buf).erase s.emitted).Perm
            ((List.range' s.emitted s.queueLen).erase s.emitted) :=
          hc.perm.erase s.emitted
        have hq1 : 0 < s.queueLen := by
          simp only [BufSt.queueLen]; omega
        obtain ⟨m, hm⟩ :=
          Nat.exists_eq_succ_of_ne_zero (Nat.pos_iff_ne_zero.mp hq1)
        have e3 : (List.range' s.emitted s.queueLen).erase s.emitted =
            List.range' (s.emitted + 1) (s.queueLen - 1) := by
          rw [hm, List.range'_succ, List.erase_cons_head]
          simp
        rw [e1]
        rw [e3] at e2
        exact e2
      · have := hc.le_n
        show s.emitted + 1 + _ ≤ n
        rw [hql]
        simp only [BufSt.started, BufSt.queueLen] at *
        omega
      · have := hc.le_cap
        rw [hql]
        simp only [BufSt.queueLen] at *
        omega
      · show s.out ++ [res s.emitted] =
          List.map res (List.range (s.emitted + 1))
        rw [hc.outEq, List.range_succ, List.map_append]
        rfl
    obtain ⟨c1, c2, c3, c4, c5⟩ := drain_spec n cap res _ hcore
    refine ⟨c1, c2, c3, ?_, ?_⟩
    · rw [c4]
      simp only [drainNext, BufSt.started, BufSt.queueLen, herase]
      omega
    · rw [c5]
      simp only [drainNext, BufSt.completedCount, herase]
      omega
  · rw [dif_neg h]
    exact ⟨hc, h, rfl, rfl, rfl⟩
termination_by s.buf.length
decreasing_by
  simp only [drainNext]
  have h2 := List.length_erase_of_mem h
  have hpos : 0 < s.buf.length := List.length_pos.mpr (by
    intro hnil; rw [hnil] at h; exact (List.not_mem_nil _ h))
  omega

theorem completeOne_spec (n cap : Nat) (res : Nat → α) (choice : Nat)
    (s : BufSt α) (hc : BufCore n cap res s) :
    BufCore n cap res (completeOne choice s) ∧
    (completeOne choice s).emitted = s.emitted ∧
    (completeOne choice s).started = s.started ∧
    (completeOne choice s).out = s.out ∧
    (s.flight = [] → completeOne choice s = s) ∧
    (s.flight ≠ [] →
      (completeOne choice s).completedCount = s.completedCount + 1) := by
  unfold completeOne
  by_cases hf : s.flight.isEmpty
  · rw [if_pos hf]
    exact ⟨hc, rfl, rfl, rfl, fun _ => rfl,
      fun hne => absurd (List.isEmpty_iff.mp hf) hne⟩
  · rw [if_neg hf]
    have hne : s.flight ≠ [] := fun hnil => hf (by rw [hnil]; rfl)
    have hlen : 0 < s.flight.length := List.length_pos.mpr hne
    set k := choice % s.flight.length with hk
    have hklt : k < s.flight.length := Nat.mod_lt _ hlen
    have hget : s.flight.getD k 0 = s.flight[k] :=
      List.getD_eq_getElem s.flight 0 hklt
    have hlen' : (s.flight.eraseIdx k).length = s.flight.length - 1 := by
      rw [List.length_eraseIdx, if_pos hklt]
    have hsplit : s.flight = s.flight.take k ++ s.flight[k] ::
      s.flight.drop (k + 1) := by
      conv_lhs => rw [← List.take_append_drop k s.flight]
      rw [List.drop_eq_getElem_cons hklt]
    have hperm1 : s.flight.Perm (s.flight[k] :: s.flight.eraseIdx k) := by
      rw [List.eraseIdx_eq_take_drop_succ]
      conv_lhs => rw [hsplit]
      exact List.perm_middle
    have hql : (completeNext k s).queueLen = s.queueLen := by
      show (s.flight.eraseIdx k).length +
        (s.buf ++ [s.flight.getD k 0]).length = s.queueLen
      rw [hlen', List.length_append]
      simp only [BufSt.queueLen, List.length_cons, List.length_nil]
      omega
    have hem : (completeNext k s).emitted = s.emitted := rfl
    have hst : (completeNext k s).started = s.started := by
      simp only [BufSt.started, hem, hql]
    refine ⟨?_, rfl, hst, rfl, fun hnil => absurd hnil hne, ?_⟩
    · constructor
      · show (s.flight.eraseIdx k ++ (s.buf ++ [s.flight.getD k 0])).Perm
          (List.range' s.emitted (completeNext k s).queueLen)
        rw [hql, hget]
        have p1 : (s.flight.eraseIdx k ++ (s.buf ++ [s.flight[k]])).Perm
            (s.flight[k] :: (s.flight.eraseIdx k ++ s.buf)) := by
          rw [← List.append_assoc]
          exact List.perm_append_singleton _ _
        have p2 : (s.flight[k] :: (s.flight.eraseIdx k ++ s.buf)).Perm
            (s.flight ++ s.buf) := by
          have hp := List.Perm.append_right s.buf hperm1
          exact hp.symm
        exact (p1.trans p2).trans hc.perm
      · show (completeNext k s).started ≤ n
        rw [hst]
        exact hc.le_n
      · show (completeNext k s).queueLen ≤ cap
        rw [hql]
        exact hc.le_cap
      · exact hc.outEq
    · intro _
      show (completeNext k s).emitted + (completeNext k s).buf.length =
        s.emitted + s.buf.length + 1
      rw [hem]
      show s.emitted + (s.buf ++ [s.flight.getD k 0]).length =
        s.emitted + s.buf.length + 1
      rw [List.length_append]
      simp only [List.length_cons, List.length_nil]
      omega

/-- The queue never holds indices past the end of the input, so the
completed count is at most `n`. -/
theorem ccount_le (n cap : Nat) (res : Nat → α) (s : BufSt α)
    (hc : BufCore n cap res s) : s.completedCount ≤ n := by
  have h1 := hc.le_n
  simp only [BufSt.started, BufSt.queueLen, BufSt.completedCount] at *
  omega

/-- Under the full invariant with a positive capacity, a state that has
not emitted everything still has a future in flight: the next expected
result has been started and is not buffered. -/
theorem flight_ne_nil (n cap : Nat) (res : Nat → α) (s : BufSt α)
    (hinv : BufInv n cap res s) (hcap : 0 < cap) (hlt : s.emitted < n) :
    s.flight ≠ [] := by
  obtain ⟨hc, hfull, hnb⟩ := hinv
  intro hnil
  have hq : s.queueLen = s.buf.length := by
    simp only [BufSt.queueLen, hnil, List.length_nil]
    omega
  have hbl : 0 < s.buf.length := by
    simp only [BufSt.started] at hfull
    omega
  have hperm : s.buf.Perm (List.range' s.emitted s.queueLen) := by
    have := hc.perm
    rw [hnil] at this
    exact this
  have hmem : s.emitted ∈ List.range' s.emitted s.queueLen :=
    List.mem_range'_1.mpr ⟨Nat.le_refl _, by omega⟩
  exact hnb (hperm.mem_iff.mpr hmem)

theorem stepB_spec (n cap : Nat) (res : Nat → α) (choice : Nat)
    (s : BufSt α) (hinv : BufInv n cap res s) :
    BufInv n cap res (stepB n cap res choice s) ∧
    s.completedCount ≤ (stepB n cap res choice s).completedCount ∧
    (0 < cap → s.completedCount < n →
      (stepB n cap res choice s).completedCount = s.completedCount + 1) := by
  obtain ⟨hc, hfull, hnb⟩ := hinv
  obtain ⟨cc, cem, cst, cout, cid, cinc⟩ :=
    completeOne_spec n cap res choice s hc
  obtain ⟨dc, dnb, dfl, dst, dcc⟩ :=
    drain_spec n cap res (completeOne choice s) cc
  obtain ⟨rc, rfull, rem, rbuf, rout⟩ :=
    refill_spec n cap res (drain res (completeOne choice s)) dc
  have hnb2 : (stepB n cap res choice s).emitted ∉
      (stepB n cap res choice s).buf := by
    show (refill n cap (drain res (completeOne choice s))).emitted ∉
      (refill n cap (drain res (completeOne choice s))).buf
    rw [rem, rbuf]
    exact dnb
  have hccr : (stepB n cap res choice s).completedCount =
      (drain res (completeOne choice s)).completedCount := by
    show (refill n cap (drain res (completeOne choice s))).completedCount =
      (drain res (completeOne choice s)).completedCount
    simp only [BufSt.completedCount, rem, rbuf]
  refine ⟨⟨rc, rfull, hnb2⟩, ?_, ?_⟩
  · rw [hccr, dcc]
    by_cases hf : s.flight = []
    · rw [cid hf]
    · rw [cinc hf]
      omega
  · intro hcap hlt
    have hemlt : s.emitted < n := by
      simp only [BufSt.completedCount] at hlt
      omega
    have hf := flight_ne_nil n cap res s ⟨hc, hfull, hnb⟩ hcap hemlt
    rw [hccr, dcc, cinc hf]

/-- Unfolding of one scheduler step of the iterated machine. -/
theorem iterB_succ (n cap : Nat) (res : Nat → α) (sched : Nat → Nat)
    (k : Nat) :
    iterB n cap res sched (k + 1) =
      stepB n cap res (sched k) (iterB n cap res sched k) := by
  simp only [iterB, List.range_succ, List.foldl_append, List.foldl_cons,
    List.foldl_nil]

theorem iterB_inv (n cap : Nat) (res : Nat → α) (sched : Nat → Nat)
    (hcap : 0 < cap) (k : Nat) :
    BufInv n cap res (iterB n cap res sched k) ∧
    min k n ≤ (iterB n cap res sched k).completedCount := by
  induction k with
  | zero =>
    have hc0 : BufCore n cap res (⟨0, [], [], []⟩ : BufSt α) := by
      constructor
      · show List.Perm [] (List.range' 0 _)
        show List.Perm [] (List.range' 0 0)
        exact List.Perm.refl _
      · show 0 + 0 ≤ n
        omega
      · show 0 + 0 ≤ cap
        omega
      · rfl
    obtain ⟨rc, rfull, rem, rbuf, rout⟩ := refill_spec n cap res _ hc0
    refine ⟨⟨rc, rfull, ?_⟩, by omega⟩
    show (refill n cap (⟨0, [], [], []⟩ : BufSt α)).emitted ∉
      (refill n cap (⟨0, [], [], []⟩ : BufSt α)).buf
    rw [rem, rbuf]
    exact List.not_mem_nil 0
  | succ k ih =>
    obtain ⟨hinv, hcnt⟩ := ih
    obtain ⟨hinv', hmono, hinc⟩ :=
      stepB_spec n cap res (sched k) (iterB n cap res sched k) hinv
    rw [iterB_succ]
    refine ⟨hinv', ?_⟩
    by_cases hlt : (iterB n cap res sched k).completedCount < n
    · rw [hinc hcap hlt]
      omega
    · omega

/-- Driving the machine for `n` scheduler steps completes and yields every
result: the collected output is the results of all `n` futures in input
order, for every completion schedule. -/
theorem iterB_out (n cap : Nat) (res : Nat → α) (sched : Nat → Nat)
    (hcap : 0 < cap) :
    (iterB n cap res sched n).out = (List.range n).map res := by
  obtain ⟨⟨hc, hfull, hnb⟩, hcnt⟩ := iterB_inv n cap res sched hcap n
  set s := iterB n cap res sched n with hs
  have hccn : s.completedCount = n := by
    have := ccount_le n cap res s hc
    omega
  have hfl : s.flight.length = 0 := by
    have h1 := hc.le_n
    simp only [BufSt.started, BufSt.queueLen, BufSt.completedCount] at *
    omega
  have hbuf : s.buf = [] := by
    by_contra hne
    have hbl : 0 < s.buf.length := List.length_pos.mpr hne
    have hperm : (s.flight ++ s.buf).Perm
        (List.range' s.emitted s.queueLen) := hc.perm
    have hql : s.queueLen = s.buf.length := by
      simp only [BufSt.queueLen]
      omega
    have hmem : s.emitted ∈ List.range' s.emitted s.queueLen :=
      List.mem_range'_1.mpr ⟨Nat.le_refl _, by omega⟩
    have : s.emitted ∈ s.flight ++ s.buf := hperm.mem_iff.mpr hmem
    rcases List.mem_append.mp this with hmf | hmb
    · rw [List.length_eq_zero.mp hfl] at hmf
      exact List.not_mem_nil _ hmf
    · exact hnb hmb
  have hem : s.emitted = n := by
    simp only [BufSt.completedCount, hbuf, List.length_nil] at hccn
    omega
  rw [hc.outEq, hem]

/-! Characterization of the write-back loop. -/

/-- What one download result does to its originating entry: `Ok` sets the
content, `Err` leaves the entry untouched. -/
def applyBody (page : Page) (r : Except String String) : Page :=
  match r with
  | .ok content => { page with content := some content }
  | .error _ => page

theorem modifyIdx_append (pre suf : List α) (x : α) (f : α → α) :
    modifyIdx (pre ++ x :: suf) pre.length f = pre ++ f x :: suf := by
  induction pre with
  | nil => rfl
  | cons a as ih => simp [modifyIdx, ih]

theorem applyResults_aux (bodies : List (Except String String))
    (pre suf : List Page) (h : bodies.length ≤ suf.length) :
    (List.enumFrom pre.length bodies).foldl applyStep (pre ++ suf) =
      pre ++ (List.zipWith applyBody suf bodies ++
        suf.drop bodies.length) := by
  induction bodies generalizing pre suf with
  | nil => simp
  | cons b bs ih =>
    cases suf with
    | nil => simp at h
    | cons s ss =>
      have hstep : applyStep (pre ++ s :: ss) (pre.length, b) =
          (pre ++ [applyBody s b]) ++ ss := by
        cases b with
        | ok c =>
          show modifyIdx (pre ++ s :: ss) pre.length _ = _
          rw [modifyIdx_append]
          simp [applyBody]
        | error e =>
          show pre ++ s :: ss = _
          simp [applyBody]
      have hlen : pre.length + 1 = (pre ++ [applyBody s b]).length := by
        simp
      have hle : bs.length ≤ ss.length := by
        simp only [List.length_cons] at h
        omega
      show List.foldl applyStep (pre ++ s :: ss)
        ((pre.length, b) :: List.enumFrom (pre.length + 1) bs) = _
      rw [List.foldl_cons, hstep, hlen, ih _ _ hle]
      simp [List.append_assoc]

/-- The write-back loop with one result per listing entry equals the
pointwise application of each result to the entry at its index. -/
theorem applyResults_eq_zipWith (page_list : List Page)
    (bodies : List (Except String String))
    (h : bodies.length = page_list.length) :
    applyResults page_list bodies =
      List.zipWith applyBody page_list bodies := by
  have haux := applyResults_aux bodies [] page_list (le_of_eq h)
  simp only [List.nil_append, List.length_nil] at haux
  rw [applyResults, List.enum, haux, h, List.drop_length,
    List.append_nil]

/-- The collected download results: one per listing entry, in listing
order, for every completion schedule (capacity 5 is positive). -/
theorem downloadStates_out (env : Env) (page_list : List Page)
    (sched : Nat → Nat) :
    (downloadStates env page_list sched page_list.length).out =
      (List.range page_list.length).map (downloadRes env page_list) :=
  iterB_out _ _ _ _ (by decide)

/-! Success conditions for the phases of `build_database` preceding the
downloads, as predicates on the oracle. -/

/-- The landing page was fetched and read, a CSRF token was found, and the
login POST returned a success status. -/
def AuthOk (env : Env) : Prop :=
  ∃ r body token lr,
    env.landing = .ok r ∧ r.text = .ok body ∧
    extractCsrf body = some token ∧
    env.login token (trimAscii env.user) env.pass = .ok lr ∧
    isSuccess lr.status = true

/-- The team-listing request succeeded with a non-error status and its
body deserialized to `page_list`. -/
def ListingOk (env : Env) (page_list : List Page) : Prop :=
  ∃ lr, env.listing = .ok lr ∧ isErrorStatus lr.status = false ∧
    lr.json = .ok page_list

/-- On a successful run, `build_database` returns exactly the listing with
each entry updated by its own download result. -/
theorem build_database_ok (env : Env) (team : String) (sched : Nat → Nat)
    (page_list : List Page) (hauth : AuthOk env)
    (hlist : ListingOk env page_list) :
    (build_database env team sched).1 =
      .ok (List.zipWith applyBody page_list
        ((List.range page_list.length).map (downloadRes env page_list))) := by
  obtain ⟨r, body, token, lr, h1, h2, h3, h4, h5⟩ := hauth
  obtain ⟨lsr, g1, g2, g3⟩ := hlist
  simp only [build_database, h1, h2, h3, h4, h5, g1, g2, g3, if_true,
    Bool.false_eq_true, if_false]
  rw [downloadStates_out env page_list sched]
  rw [applyResults_eq_zipWith]
  simp

theorem build_result_length (page_list : List Page) (env : Env) :
    (List.zipWith applyBody page_list
      ((List.range page_list.length).map
        (downloadRes env page_list))).length = page_list.length := by
  simp [List.length_zipWith]

theorem build_result_getElem (page_list : List Page) (env : Env)
    (i : Nat) (h : i < page_list.length) :
    (List.zipWith applyBody page_list
      ((List.range page_list.length).map (downloadRes env page_list)))[i]? =
      some (applyBody page_list[i] (downloadRes env page_list i)) := by
  simp [List.getElem?_zipWith, List.getElem?_eq_getElem h,
    List.getElem?_map, List.getElem?_range h]

theorem build_result_getElem_none (page_list : List Page) (env : Env)
    (i : Nat) (h : page_list.length ≤ i) :
    (List.zipWith applyBody page_list
      ((List.range page_list.length).map
        (downloadRes env page_list)))[i]? = none := by
  rw [List.getElem?_eq_none]
  rw [build_result_length]
  exact h

/-- For an index inside the listing, the download result is the fetch of
that entry's id. -/
theorem downloadRes_eq_fetchOne (env : Env) (page_list : List Page)
    (i : Nat) (h : i < page_list.length) :
    downloadRes env page_list i = fetchOne env page_list[i].id := by
  have hm : i < (page_list.map Page.id).length := by
    simpa using h
  rw [downloadRes, List.getD_eq_getElem _ _ hm, List.getElem_map]

theorem applyBody_id (p : Page) (r : Except String String) :
    (applyBody p r).id = p.id := by
  cases r <;> rfl

theorem applyBody_title (p : Page) (r : Except String String) :
    (applyBody p r).title = p.title := by
  cases r <;> rfl

theorem applyBody_lastchange (p : Page) (r : Except String String) :
    (applyBody p r).lastchange_at = p.lastchange_at := by
  cases r <;> rfl

theorem applyBody_content (p : Page) (r : Except String String) :
    (applyBody p r).content =
      match r with
      | .ok c => some c
      | .error _ => p.content := by
  cases r <;> rfl

/-! Concrete inputs used by the witnesses. -/

/-- A landing page body containing the CSRF marker with capture `tok`. -/
def cbody : String := "ab \"csrf-token\" content=\"tok\" cd"

/-- A two-document listing, content unset as the listing leaves it. -/
def cpages : List Page := [⟨"a", "ta", "1", none⟩, ⟨"b", "tb", "2", none⟩]

/-- Oracle where every request succeeds; the download of document `b`
returns a 500 status with a readable body. -/
def cenv : Env :=
  ⟨.ok ⟨200, .ok cbody⟩, fun _ _ _ => .ok ⟨200, .ok ""⟩,
    .ok ⟨200, .ok cpages⟩,
    fun id => if id = "a" then .ok ⟨200, .ok "A"⟩ else .ok ⟨500, .ok "B"⟩,
    "u", "p", .ok ()⟩

/-- Oracle where the download of document `b` fails with a transport
error after the client's retries. -/
def cenvFail : Env :=
  ⟨.ok ⟨200, .ok cbody⟩, fun _ _ _ => .ok ⟨200, .ok ""⟩,
    .ok ⟨200, .ok cpages⟩,
    fun id => if id = "a" then .ok ⟨200, .ok "A"⟩ else .error "net down",
    "u", "p", .ok ()⟩

theorem cenv_auth : AuthOk cenv :=
  ⟨⟨200, .ok cbody⟩, cbody, "tok", ⟨200, .ok ""⟩, rfl, rfl, by decide,
    rfl, rfl⟩

theorem cenv_listing : ListingOk cenv cpages := ⟨⟨200, .ok cpages⟩, rfl, rfl, rfl⟩

theorem cenvFail_auth : AuthOk cenvFail :=
  ⟨⟨200, .ok cbody⟩, cbody, "tok", ⟨200, .ok ""⟩, rfl, rfl, by decide,
    rfl, rfl⟩

theorem cenvFail_listing : ListingOk cenvFail cpages :=
  ⟨⟨200, .ok cpages⟩, rfl, rfl, rfl⟩

/-- C1: for every team listing of N documents, the PageCollection returned
by build_database has exactly N entries whose order equals the listing
response order, regardless of the completion order of the concurrent
downloads: each download result is written back to its originating entry
by positional index. -/
theorem C1_order_stable (env : Env) (team : String)
    (sched sched' : Nat → Nat) (page_list : List Page)
    (hauth : AuthOk env) (hlist : ListingOk env page_list) :
    ∃ out, (build_database env team sched).1 = .ok out ∧
      (build_database env team sched').1 = .ok out ∧
      out.length = page_list.length ∧
      ∀ i (h : i < page_list.length),
        out[i]? = some (applyBody page_list[i]
          (downloadRes env page_list i)) :=
  ⟨_, build_database_ok env team sched page_list hauth hlist,
    build_database_ok env team sched' page_list hauth hlist,
    build_result_length page_list env,
    fun i h => build_result_getElem page_list env i h⟩

theorem C1_order_stable_witness :
    ∃ out, (build_database cenv "team" (fun _ => 0)).1 = .ok out ∧
      (build_database cenv "team" (fun t => 7 * t + 5)).1 = .ok out ∧
      out.length = cpages.length ∧
      ∀ i (h : i < cpages.length),
        out[i]? = some (applyBody cpages[i] (downloadRes cenv cpages i)) :=
  C1_order_stable cenv "team" (fun _ => 0) (fun t => 7 * t + 5) cpages
    cenv_auth cenv_listing

/-- C9: the content-fetch phase of build_database modifies only the
content field of entries: id, title and lastchangeAt of every entry are
unchanged from the listing response, and each entry's content either
stays as the listing left it (in particular it is never set for a failed
download and never cleared) or is set to the downloaded body. -/
theorem C9_frame_effect (env : Env) (team : String) (sched : Nat → Nat)
    (page_list : List Page) (hauth : AuthOk env)
    (hlist : ListingOk env page_list) :
    ∃ out, (build_database env team sched).1 = .ok out ∧
      out.length = page_list.length ∧
      ∀ i (h : i < page_list.length), ∃ p',
        out[i]? = some p' ∧
        p'.id = page_list[i].id ∧
        p'.title = page_list[i].title ∧
        p'.lastchange_at = page_list[i].lastchange_at ∧
        p'.content = (match downloadRes env page_list i with
          | .ok c => some c
          | .error _ => page_list[i].content) := by
  refine ⟨_, build_database_ok env team sched page_list hauth hlist,
    build_result_length page_list env, fun i h => ?_⟩
  exact ⟨applyBody page_list[i] (downloadRes env page_list i),
    build_result_getElem page_list env i h,
    applyBody_id _ _, applyBody_title _ _, applyBody_lastchange _ _,
    applyBody_content _ _⟩

theorem C9_frame_effect_witness :
    ∃ out, (build_database cenv "team" (fun _ => 1)).1 = .ok out ∧
      out.length = cpages.length ∧
      ∀ i (h : i < cpages.length), ∃ p',
        out[i]? = some p' ∧
        p'.id = cpages[i].id ∧
        p'.title = cpages[i].title ∧
        p'.lastchange_at = cpages[i].lastchange_at ∧
        p'.content = (match downloadRes cenv cpages i with
          | .ok c => some c
          | .error _ => cpages[i].content) :=
  C9_frame_effect cenv "team" (fun _ => 1) cpages cenv_auth cenv_listing

/-- C10: a per-document download whose HTTP response has a non-success
status but whose body is readable is not treated as a fetch failure: the
response body is stored as that page's content, because the download path
checks only transport errors, never the HTTP status code. -/
theorem C10_status_not_checked (env : Env) (team : String)
    (sched : Nat → Nat) (page_list : List Page) (hauth : AuthOk env)
    (hlist : ListingOk env page_list) (k : Nat)
    (hk : k < page_list.length) (resp : HttpResp)
    (hdl : env.download page_list[k].id = .ok resp)
    (hstatus : isSuccess resp.status = false) (body : String)
    (hbody : resp.text = .ok body) :
    ∃ out, (build_database env team sched).1 = .ok out ∧
      ∃ p', out[k]? = some p' ∧ p'.content = some body := by
  refine ⟨_, build_database_ok env team sched page_list hauth hlist,
    applyBody page_list[k] (downloadRes env page_list k),
    build_result_getElem page_list env k hk, ?_⟩
  rw [applyBody_content, downloadRes_eq_fetchOne env page_list k hk,
    fetchOne, hdl]
  simp only [hbody]

theorem C10_status_not_checked_witness :
    ∃ out, (build_database cenv "team" (fun _ => 2)).1 = .ok out ∧
      ∃ p', out[1]? = some p' ∧ p'.content = some "B" :=
  C10_status_not_checked cenv "team" (fun _ => 2) cpages cenv_auth
    cenv_listing 1 (by decide) ⟨500, .ok "B"⟩ rfl rfl "B" rfl

/-- Unfolding of the build branch of `main` on a successful crawl: the
collection is serialized wholesale to the snapshot path. -/
theorem mainFlow_build (env : Env) (world : World) (args : Args)
    (team : String) (sched : Nat → Nat) (hdb : args.database ≠ "")
    (hmode : args.update = true ∨ world.isFile args.database = false)
    (hteam : args.team = some team) (hmeili : args.meilisearch = none)
    (out : List Page) (tr : List Event)
    (hbd : build_database env team sched = (.ok out, tr)) :
    mainFlow env world args sched =
      (.ok out, some (encodePages out), tr ++ [.fileWrite args.database]) := by
  have hcond : (args.update || ! world.isFile args.database) = true := by
    rcases hmode with h | h <;> rw [h] <;> simp
  simp [mainFlow, hdb, hcond, hteam, hbd, hmeili, to_meilisearch]

/-- C2: if the download of the document at position k fails after
exhausting retries, then that entry and only that entry of the resulting
PageCollection has content absent, while build_database still returns
successfully and the run proceeds to persist the collection. -/
theorem C2_failed_download (env : Env) (world : World) (args : Args)
    (team : String) (sched : Nat → Nat) (page_list : List Page) (k : Nat)
    (e : String) (hdb : args.database ≠ "")
    (hmode : args.update = true ∨ world.isFile args.database = false)
    (hteam : args.team = some team) (hmeili : args.meilisearch = none)
    (hauth : AuthOk env) (hlist : ListingOk env page_list)
    (hnone : ∀ p ∈ page_list, p.content = none)
    (hk : k < page_list.length)
    (hfail : fetchOne env page_list[k].id = .error e)
    (hsucc : ∀ i (h : i < page_list.length), i ≠ k →
      ∃ c, fetchOne env page_list[i].id = .ok c) :
    ∃ out tr, (build_database env team sched).1 = .ok out ∧
      mainFlow env world args sched =
        (.ok out, some (encodePages out), tr) ∧
      out.length = page_list.length ∧
      (∃ p', out[k]? = some p' ∧ p'.content = none) ∧
      (∀ i (h : i < page_list.length), i ≠ k →
        ∃ p' c, out[i]? = some p' ∧ p'.content = some c) := by
  have hok := build_database_ok env team sched page_list hauth hlist
  rcases hEq : build_database env team sched with ⟨bd, tr0⟩
  rw [hEq] at hok
  simp only at hok
  rw [hok] at hEq
  refine ⟨List.zipWith applyBody page_list
    ((List.range page_list.length).map (downloadRes env page_list)),
    tr0 ++ [.fileWrite args.database], ?_, ?_, ?_, ?_, ?_⟩
  · simpa using hok
  · exact mainFlow_build env world args team sched hdb hmode hteam hmeili
      _ tr0 hEq
  · exact build_result_length page_list env
  · refine ⟨applyBody page_list[k] (downloadRes env page_list k),
      build_result_getElem page_list env k hk, ?_⟩
    rw [applyBody_content, downloadRes_eq_fetchOne env page_list k hk]
    simp only [hfail]
    exact hnone _ (page_list.getElem_mem hk)
  · intro i h hne
    obtain ⟨c, hc⟩ := hsucc i h hne
    refine ⟨applyBody page_list[i] (downloadRes env page_list i), c,
      build_result_getElem page_list env i h, ?_⟩
    rw [applyBody_content, downloadRes_eq_fetchOne env page_list i h]
    simp only [hc]

theorem C2_failed_download_witness :
    ∃ out tr,
      (build_database cenvFail "team" (fun _ => 3)).1 = .ok out ∧
      mainFlow cenvFail ⟨fun _ => false, fun _ => .error "no file"⟩
        ⟨some "team", "hackmd.json", true, none⟩ (fun _ => 3) =
        (.ok out, some (encodePages out), tr) ∧
      out.length = cpages.length ∧
      (∃ p', out[1]? = some p' ∧ p'.content = none) ∧
      (∀ i (h : i < cpages.length), i ≠ 1 →
        ∃ p' c, out[i]? = some p' ∧ p'.content = some c) := by
  refine C2_failed_download cenvFail
    ⟨fun _ => false, fun _ => .error "no file"⟩
    ⟨some "team", "hackmd.json", true, none⟩ "team" (fun _ => 3) cpages 1
    "net down" (by decide) (.inl rfl) rfl rfl cenvFail_auth
    cenvFail_listing (by decide) (by decide) rfl ?_
  intro i h hne
  have h2 : i < 2 := by simpa [cpages] using h
  interval_cases i
  · exact ⟨"A", rfl⟩
  · exact absurd rfl hne

/-- C4: for every input listing size (including 0, 1 and 100) and every
completion schedule, the number of simultaneously outstanding download
operations of the bounded content fetcher never exceeds 5, at every step
of the machine. -/
theorem C4_concurrency_bound (env : Env) (page_list : List Page)
    (sched : Nat → Nat) (k : Nat) :
    (downloadStates env page_list sched k).flight.length ≤
      CONCURRENT_REQUESTS ∧ CONCURRENT_REQUESTS = 5 := by
  obtain ⟨⟨hc, -, -⟩, -⟩ := iterB_inv page_list.length CONCURRENT_REQUESTS
    (downloadRes env page_list) sched (by decide) k
  have hcap := hc.le_cap
  simp only [BufSt.queueLen] at hcap
  refine ⟨?_, rfl⟩
  show (iterB page_list.length CONCURRENT_REQUESTS
    (downloadRes env page_list) sched k).flight.length ≤ _
  omega

theorem retryFrom_ok (m : Nat) (att : Nat → Attempt) (n : Nat)
    (r : HttpResp) (h : att n = .ok r) : retryFrom m att n = .ok r := by
  rw [retryFrom, h]

theorem retryFrom_transient_step (m : Nat) (att : Nat → Attempt) (n : Nat)
    (e : String) (h : att n = .transient e) (hlt : n < m) :
    retryFrom m att n = retryFrom m att (n + 1) := by
  rw [retryFrom, h]
  simp [hlt]

theorem retryFrom_transient_exhausted (m : Nat) (att : Nat → Attempt)
    (n : Nat) (e : String) (h : att n = .transient e) (hge : ¬ n < m) :
    retryFrom m att n = .error e := by
  rw [retryFrom, h]
  simp [hge]

/-- C8: transient failures are retried up to a fixed maximum of 3 retries
with exponentially increasing delay: a request whose first 2 attempts fail
transiently and whose 3rd attempt succeeds results in overall success with
no error surfaced, while a request with 4 consecutive transient failures
surfaces a propagated failure for that request. -/
theorem C8_retry_policy (a b : Nat → Attempt) (r : HttpResp)
    (e0 e1 f0 f1 f2 f3 : String)
    (ha0 : a 0 = .transient e0) (ha1 : a 1 = .transient e1)
    (ha2 : a 2 = .ok r)
    (hb0 : b 0 = .transient f0) (hb1 : b 1 = .transient f1)
    (hb2 : b 2 = .transient f2) (hb3 : b 3 = .transient f3) :
    retrySend MAX_RETRIES a = .ok r ∧
    retrySend MAX_RETRIES b = .error f3 ∧
    MAX_RETRIES = 3 ∧
    (∀ i, retryDelay i < retryDelay (i + 1)) := by
  refine ⟨?_, ?_, rfl, ?_⟩
  · rw [retrySend,
      retryFrom_transient_step MAX_RETRIES a 0 e0 ha0 (by decide),
      retryFrom_transient_step MAX_RETRIES a 1 e1 ha1 (by decide),
      retryFrom_ok MAX_RETRIES a 2 r ha2]
  · rw [retrySend,
      retryFrom_transient_step MAX_RETRIES b 0 f0 hb0 (by decide),
      retryFrom_transient_step MAX_RETRIES b 1 f1 hb1 (by decide),
      retryFrom_transient_step MAX_RETRIES b 2 f2 hb2 (by decide),
      retryFrom_transient_exhausted MAX_RETRIES b 3 f3 hb3 (by decide)]
  · intro i
    simp only [retryDelay, Nat.pow_succ]
    have h2 : 0 < 2 ^ i := pow_pos (by norm_num) i
    omega

/-- Request whose first two attempts fail transiently and whose third
succeeds. -/
def cattA : Nat → Attempt :=
  fun n => if n < 2 then .transient "timeout" else .ok ⟨200, .ok "done"⟩

/-- Request whose every attempt fails transiently. -/
def cattB : Nat → Attempt := fun _ => .transient "timeout"

theorem C8_retry_policy_witness :
    retrySend MAX_RETRIES cattA = .ok ⟨200, .ok "done"⟩ ∧
    retrySend MAX_RETRIES cattB = .error "timeout" ∧
    MAX_RETRIES = 3 ∧
    (∀ i, retryDelay i < retryDelay (i + 1)) :=
  C8_retry_policy cattA cattB ⟨200, .ok "done"⟩ "timeout" "timeout"
    "timeout" "timeout" "timeout" "timeout" rfl rfl rfl rfl rfl rfl rfl

/-- C3: persisting a PageCollection as the snapshot and then loading that
snapshot back in load mode yields an identical collection (same ids,
titles, timestamps and content, including absent content), with no network
calls made during the load: the whole trace is the single snapshot read. -/
theorem C3_snapshot_roundtrip (ps : List Page) (env : Env) (world : World)
    (args : Args) (sched : Nat → Nat) (hdb : args.database ≠ "")
    (hupd : args.update = false)
    (hfile : world.isFile args.database = true)
    (hread : world.openRead args.database = .ok (encodePages ps))
    (hmeili : args.meilisearch = none) :
    mainFlow env world args sched =
      (.ok ps, none, [.fileRead args.database]) := by
  have hcond : (args.update || ! world.isFile args.database) = false := by
    rw [hupd, hfile]
    rfl
  simp [mainFlow, hdb, hcond, hread, decodePages_encodePages, hmeili,
    to_meilisearch]

theorem C3_snapshot_roundtrip_witness :
    mainFlow cenv ⟨fun _ => true, fun _ => .ok (encodePages cpages)⟩
      ⟨none, "hackmd.json", false, none⟩ (fun _ => 0) =
      (.ok cpages, none, [.fileRead "hackmd.json"]) :=
  C3_snapshot_roundtrip cpages cenv
    ⟨fun _ => true, fun _ => .ok (encodePages cpages)⟩
    ⟨none, "hackmd.json", false, none⟩ (fun _ => 0) (by decide) rfl rfl
    rfl rfl

/-- Whatever the oracle answers, the first side effect of a build run is
the network request for the landing page. -/
theorem build_database_trace_head (env : Env) (team : String)
    (sched : Nat → Nat) :
    (build_database env team sched).2.head? =
      some (.netRequest SERVER_URL) := by
  unfold build_database
  rcases h1 : env.landing with e | resp <;> simp [h1]
  rcases h2 : resp.text with e | content <;> simp [h2]
  rcases h3 : extractCsrf content with _ | tok <;> simp [h3]
  rcases h4 : env.login tok (trimAscii env.user) env.pass with e | lresp <;>
    simp [h4]
  by_cases hs : isSuccess lresp.status <;> simp [hs]
  rcases h5 : env.listing with e | listResp <;> simp [h5]
  by_cases herr : isErrorStatus listResp.status <;> simp [herr]
  rcases h6 : listResp.json with e | page_list <;> simp [h6]

/-- C5: build mode (network crawl then wholesale snapshot overwrite) is
entered if and only if the update flag is set or the snapshot file does
not exist; otherwise load mode deserializes the snapshot into the
collection and performs no network activity. -/
theorem C5_mode_dispatch (env : Env) (world : World) (args : Args)
    (sched : Nat → Nat) (hdb : args.database ≠ "")
    (hmeili : args.meilisearch = none) :
    ((args.update = true ∨ world.isFile args.database = false) →
      ∀ team, args.team = some team →
      ∃ res writ tr, mainFlow env world args sched = (res, writ, tr) ∧
        tr.head? = some (.netRequest SERVER_URL) ∧
        (∀ pl, res = .ok pl → writ = some (encodePages pl))) ∧
    (args.update = false → world.isFile args.database = true →
      ∃ res, mainFlow env world args sched =
        (res, none, [.fileRead args.database]) ∧
        (∀ j ps, world.openRead args.database = .ok j →
          decodePages j = .ok ps → res = .ok ps)) := by
  constructor
  · intro hmode team hteam
    have hcond : (args.update || ! world.isFile args.database) = true := by
      rcases hmode with h | h <;> rw [h] <;> simp
    have hhead := build_database_trace_head env team sched
    rcases hEq : build_database env team sched with ⟨bd, tr0⟩
    rw [hEq] at hhead
    simp only at hhead
    cases tr0 with
    | nil => simp at hhead
    | cons ev rest =>
      simp only [List.head?_cons, Option.some.injEq] at hhead
      cases bd with
      | error e =>
        refine ⟨.error (.other e), none, ev :: rest, ?_, by simp [hhead],
          fun pl hpl => by cases hpl⟩
        simp [mainFlow, hdb, hcond, hteam, hEq]
      | ok pl =>
        refine ⟨.ok pl, some (encodePages pl),
          (ev :: rest) ++ [.fileWrite args.database], ?_, by simp [hhead],
          fun pl' hpl' => by rw [Except.ok.inj hpl']⟩
        exact mainFlow_build env world args team sched hdb hmode hteam
          hmeili pl (ev :: rest) hEq
  · intro hupd hfile
    have hcond : (args.update || ! world.isFile args.database) = false := by
      rw [hupd, hfile]
      rfl
    rcases hrd : world.openRead args.database with e | j
    · refine ⟨.error (.other e), ?_, fun j' ps hj hp => by simp at hj⟩
      simp [mainFlow, hdb, hcond, hrd]
    · rcases hdec : decodePages j with e | ps
      · refine ⟨.error (.other e), ?_, fun j' ps' hj hp => ?_⟩
        · simp [mainFlow, hdb, hcond, hrd, hdec]
        · cases hj
          rw [hdec] at hp
          cases hp
      · refine ⟨.ok ps, ?_, fun j' ps' hj hp => ?_⟩
        · simp [mainFlow, hdb, hcond, hrd, hdec, hmeili, to_meilisearch]
        · cases hj
          rw [hdec] at hp
          cases hp
          rfl

theorem C5_mode_dispatch_witness :
    ((true = true ∨ (true : Bool) = false) →
      ∀ team, (some "team" : Option String) = some team →
      ∃ res writ tr,
        mainFlow cenv ⟨fun _ => true, fun _ => .error "no file"⟩
          ⟨some "team", "hackmd.json", true, none⟩ (fun _ => 0) =
          (res, writ, tr) ∧
        tr.head? = some (.netRequest SERVER_URL) ∧
        (∀ pl, res = .ok pl → writ = some (encodePages pl))) ∧
    ((true : Bool) = false → (fun (_ : String) => true) "hackmd.json" = true →
      ∃ res,
        mainFlow cenv ⟨fun _ => true, fun _ => .error "no file"⟩
          ⟨some "team", "hackmd.json", true, none⟩ (fun _ => 0) =
          (res, none, [.fileRead "hackmd.json"]) ∧
        (∀ j ps, (fun (_ : String) => Except.error "no file" :
            String → Except String Json) "hackmd.json" = .ok j →
          decodePages j = .ok ps → res = .ok ps)) := by
  have h := C5_mode_dispatch cenv ⟨fun _ => true, fun _ => .error "no file"⟩
    ⟨some "team", "hackmd.json", true, none⟩ (fun _ => 0) (by decide) rfl
  exact h

/-- C6: a run whose configured snapshot path is the empty string fails
with MissingArgument naming the database option, before any network
activity or interactive input, in both build and load modes (whatever the
update flag, filesystem and team argument are). -/
theorem C6_missing_database (env : Env) (world : World) (args : Args)
    (sched : Nat → Nat) (hdb : args.database = "") :
    mainFlow env world args sched =
      (.error (.missingArgument "database"), none, []) := by
  simp [mainFlow, hdb]

theorem C6_missing_database_witness :
    mainFlow cenv ⟨fun _ => true, fun _ => .error "no file"⟩
      ⟨some "team", "", true, some "http://meili"⟩ (fun _ => 0) =
      (.error (.missingArgument "database"), none, []) :=
  C6_missing_database cenv ⟨fun _ => true, fun _ => .error "no file"⟩
    ⟨some "team", "", true, some "http://meili"⟩ (fun _ => 0) rfl

/-- C7: a run that enters build mode with the team identifier unset fails
with MissingArgument naming the team option, without prompting for a
username or password and before any network activity: the trace is empty. -/
theorem C7_missing_team (env : Env) (world : World) (args : Args)
    (sched : Nat → Nat) (hdb : args.database ≠ "")
    (hmode : args.update = true ∨ world.isFile args.database = false)
    (hteam : args.team = none) :
    mainFlow env world args sched =
      (.error (.missingArgument "team"), none, []) := by
  have hcond : (args.update || ! world.isFile args.database) = true := by
    rcases hmode with h | h <;> rw [h] <;> simp
  simp [mainFlow, hdb, hcond, hteam]

theorem C7_missing_team_witness :
    mainFlow cenv ⟨fun _ => false, fun _ => .error "no file"⟩
      ⟨none, "hackmd.json", false, none⟩ (fun _ => 0) =
      (.error (.missingArgument "team"), none, []) :=
  C7_missing_team cenv ⟨fun _ => false, fun _ => .error "no file"⟩
    ⟨none, "hackmd.json", false, none⟩ (fun _ => 0) (by decide)
    (.inr rfl) rfl

end Hackmd
